import Mathlib

/-!
Shallow embedding of the job-orchestration core of `ai_diffusion`
(`src/ai_diffusion/ui/model.py`, with `src/ai_diffusion/document.py` as the
document collaborator).

Python objects are modelled as Lean structures; Python object identity is
modelled by an explicit `ref : Nat` field (two aliases of one object share the
same `ref`).  Python `float` quantities that the code only adds, subtracts and
compares (memory footprints in MB, generation strength, progress) are modelled
as `ℚ`.  Fallible code (assertions, IndexError, AttributeError) is modelled
with `Option`.
-/

/-- Python `State(Flag)` from model.py: queued = 0, executing = 1, finished = 2,
cancelled = 3.  Members are compared with `is` (identity), so a plain
inductive is a faithful model. -/
inductive State where
  | queued
  | executing
  | finished
  | cancelled
  deriving DecidableEq, Repr

/-- Python `JobKind(Enum)` from model.py. -/
inductive JobKind where
  | diffusion
  | control_layer
  deriving DecidableEq, Repr

/-- Modelled from the spec: `Bounds` (the target region of a job) lives in
`ai_diffusion/image.py`, which is not part of the analysed sources; the spec
describes it as "the rectangular area of the document a job's input/output
maps to". Only its identity matters for the claims. -/
structure Bounds where
  x : Int
  y : Int
  width : Int
  height : Int
  deriving DecidableEq, Repr

/-- Modelled from the spec: `Image` lives in `ai_diffusion/image.py`, outside
the analysed sources; for the claims only its memory footprint (bytes)
matters. -/
structure Image where
  size : Nat
  deriving DecidableEq, Repr

/-- Modelled from the spec: `ImageCollection` (an ordered collection of result
images) lives outside the analysed sources; `size` is its total byte
footprint. -/
structure ImageCollection where
  images : List Image
  deriving DecidableEq, Repr

/-- Modelled from the spec: total byte footprint of a result collection. -/
def ImageCollection.size (c : ImageCollection) : Nat :=
  (c.images.map Image.size).sum

/-- Bytes to MB, as in `results.size / (1024**2)` (model.py line 110/116). -/
def mb (n : Nat) : ℚ :=
  (n : ℚ) / ((1024 : ℚ) ^ 2)

/-- Python `Job` from model.py.  `ref` models Python object identity; `control`
holds the identity of the back-referenced control spec (Python
`job.control is spec` compares identities). -/
structure Job where
  ref : Nat
  id : Option String
  kind : JobKind
  state : State
  prompt : String
  bounds : Bounds
  control : Option Nat
  results : ImageCollection
  deriving DecidableEq, Repr

/-- Python `JobQueue` from model.py: a deque of jobs (front = head of the list,
append at the tail) plus the tracked memory usage in MB. -/
structure JobQueue where
  entries : List Job
  memoryUsage : ℚ
  deriving DecidableEq, Repr

def JobQueue.empty : JobQueue := ⟨[], 0⟩

/-- Python `JobQueue.add`: append a fresh diffusion job in state `queued`
(model.py lines 82-83).  `ref` is the identity of the newly allocated
object. -/
def JobQueue.add (q : JobQueue) (ref : Nat) (id : String) (prompt : String)
    (bounds : Bounds) : JobQueue :=
  ⟨q.entries ++ [⟨ref, some id, JobKind.diffusion, State.queued, prompt, bounds,
    none, ⟨[]⟩⟩], q.memoryUsage⟩

/-- Python `JobQueue.add_control`: append a control-layer job with unset id and a
back-reference to the control spec (model.py lines 85-89). -/
def JobQueue.addControl (q : JobQueue) (ref controlRef : Nat) (modeText : String)
    (bounds : Bounds) : JobQueue :=
  ⟨q.entries ++ [⟨ref, none, JobKind.control_layer, State.queued,
    "[Control] " ++ modeText, bounds, some controlRef, ⟨[]⟩⟩], q.memoryUsage⟩

/-- Remove the first entry with the given object identity
(Python `deque.remove`, which removes the first matching element). -/
def eraseFirstRef : List Job → Nat → List Job
  | [], _ => []
  | j :: rest, r => if j.ref = r then rest else j :: eraseFirstRef rest r

/-- Python `JobQueue.remove` (model.py lines 91-95): asserts the job is a
control-layer job, then removes it; `deque.remove` raises if absent.
`none` models the assertion failure / ValueError. -/
def JobQueue.remove (q : JobQueue) (job : Job) : Option JobQueue :=
  if job.kind = JobKind.control_layer then
    if q.entries.any (fun j => j.ref = job.ref) then
      some ⟨eraseFirstRef q.entries job.ref, q.memoryUsage⟩
    else none
  else none

/-- Python `JobQueue.find` with a string argument (model.py lines 97-99): first job
whose `id` equals the string (a job with `id = None` never matches). -/
def findById (entries : List Job) (s : String) : Option Job :=
  entries.find? (fun j => j.id = some s)

/-- Python `JobQueue.find` with a `Control` argument (model.py lines 100-101): first
job whose `control` back-reference is identical to the given spec. -/
def findByControl (entries : List Job) (c : Nat) : Option Job :=
  entries.find? (fun j => j.control = some c)

/-- Python `JobQueue.count` (model.py lines 104-105). -/
def JobQueue.count (q : JobQueue) (s : State) : Nat :=
  (q.entries.filter (fun j => j.state = s)).length

/-- Python `JobQueue.any_executing` (model.py lines 118-119). -/
def JobQueue.anyExecuting (q : JobQueue) : Bool :=
  q.entries.any (fun j => j.state = State.executing)

/-- The `while` loop of `JobQueue.prune` (model.py lines 113-116):
while the footprint exceeds the ceiling and the front job is not `keep`
(object identity), pop the front job and subtract its footprint.
`none` models the IndexError raised by `self._entries[0]` on an empty
deque (reached only when `keep` is absent and the footprint stays over
the ceiling). -/
def pruneLoop (ceiling : ℚ) (keep : Job) : ℚ → List Job → Option (ℚ × List Job)
  | mem, [] => if ceiling < mem then none else some (mem, [])
  | mem, j :: rest =>
    if ceiling < mem then
      if j.ref = keep.ref then some (mem, j :: rest)
      else pruneLoop ceiling keep (mem - mb j.results.size) rest
    else some (mem, j :: rest)

/-- Python `JobQueue.prune` (model.py lines 113-116); `ceiling` is
`settings.history_size`. -/
def JobQueue.prune (q : JobQueue) (ceiling : ℚ) (keep : Job) : Option JobQueue :=
  (pruneLoop ceiling keep q.memoryUsage q.entries).map (fun p => ⟨p.2, p.1⟩)

/-- Python `JobQueue.set_results` (model.py lines 107-111): store the results on the
job object (visible through every alias, i.e. every entry with the same
`ref`), and for diffusion jobs add the footprint to the tracked total and
prune with `keep = job`. -/
def JobQueue.setResults (q : JobQueue) (ceiling : ℚ) (job : Job)
    (results : ImageCollection) : Option JobQueue :=
  let entries := q.entries.map
    (fun j => if j.ref = job.ref then { j with results := results } else j)
  if job.kind = JobKind.diffusion then
    (pruneLoop ceiling { job with results := results }
        (q.memoryUsage + mb results.size) entries).map (fun p => ⟨p.2, p.1⟩)
  else
    some ⟨entries, q.memoryUsage⟩

/-- Footprint (in MB) of the results of all diffusion jobs in a list. -/
def diffusionFootprint (l : List Job) : ℚ :=
  ((l.filter (fun j => j.kind = JobKind.diffusion)).map
    (fun j => mb j.results.size)).sum

/-! ### Call sequences against a `JobQueue`

The callers of `JobQueue` in model.py always pass job objects that live in
the queue; a call sequence is therefore modelled by naming jobs through their
identity `ref`.  `add`/`add_control` allocate a fresh object, so the supplied
`ref` must not collide with a live entry. -/

/-- One call against a `JobQueue`: the operations of model.py lines 82-116
(`assignId` models `job.id = await client.enqueue(work)` in
`Model._generate_control_layer`, line 254). -/
inductive QOp where
  | add (ref : Nat) (id : String) (prompt : String) (bounds : Bounds)
  | addControl (ref controlRef : Nat) (modeText : String) (bounds : Bounds)
  | setResults (jobRef : Nat) (results : ImageCollection)
  | remove (jobRef : Nat)
  | assignId (jobRef : Nat) (id : String)
  deriving DecidableEq, Repr

/-- Apply one call; `none` when the call is invalid (names no live job, or a
non-fresh ref) or the underlying operation fails. -/
def applyOp (ceiling : ℚ) (q : JobQueue) : QOp → Option JobQueue
  | .add ref id prompt bounds =>
    if q.entries.any (fun j => j.ref = ref) then none
    else some (q.add ref id prompt bounds)
  | .addControl ref controlRef modeText bounds =>
    if q.entries.any (fun j => j.ref = ref) then none
    else some (q.addControl ref controlRef modeText bounds)
  | .setResults jobRef results =>
    match q.entries.find? (fun j => j.ref = jobRef) with
    | some j => q.setResults ceiling j results
    | none => none
  | .remove jobRef =>
    match q.entries.find? (fun j => j.ref = jobRef) with
    | some j => q.remove j
    | none => none
  | .assignId jobRef id =>
    match q.entries.find? (fun j => j.ref = jobRef) with
    | some _ => some ⟨q.entries.map
        (fun j => if j.ref = jobRef then { j with id := some id } else j),
        q.memoryUsage⟩
    | none => none

/-- Run a call sequence from a given queue state. -/
def runOpsFrom (ceiling : ℚ) : JobQueue → List QOp → Option JobQueue
  | q, [] => some q
  | q, op :: ops =>
    match applyOp ceiling q op with
    | some q2 => runOpsFrom ceiling q2 ops
    | none => none

/-- Run a call sequence from the empty queue. -/
def runOps (ceiling : ℚ) (ops : List QOp) : Option JobQueue :=
  runOpsFrom ceiling JobQueue.empty ops

/-! ### Workflow selection (`Model._generate`, model.py lines 214-225) -/

/-- The four request builders of the `workflow` collaborator. -/
inductive WorkflowKind where
  | generateW
  | refineW
  | inpaintW
  | refineRegionW
  deriving DecidableEq, Repr

/-- The branch selection of `Model._generate` (model.py lines 214-225),
keyed on image presence, mask presence and strength; `none` models a failing
`assert` in the taken branch. -/
def selectWorkflow (hasImage hasMask : Bool) (strength : ℚ) : Option WorkflowKind :=
  if hasImage = false ∧ hasMask = false then
    if strength = 1 then some WorkflowKind.generateW else none
  else if hasMask = false ∧ strength < 1 then
    if hasImage then some WorkflowKind.refineW else none
  else if strength = 1 then
    if hasImage ∧ hasMask then some WorkflowKind.inpaintW else none
  else
    if hasImage ∧ hasMask ∧ strength < 1 then some WorkflowKind.refineRegionW
    else none

/-! ### Model state, submission, and message handling -/

/-- Exceptions that the submission coroutines can raise: `NetworkError`
(with `url` and `code` attributes, model.py lines 34-35) or any other
exception (line 36). -/
inductive PyErr where
  | network (msg url : String) (code : Nat)
  | generic (msg : String)
  deriving DecidableEq, Repr

/-- The message `_report_errors` stores via `report_error` (model.py lines
31-37).  `util.log_error` is outside the analysed sources; modelled from the
spec ("formatted into a user-visible error message") as yielding the
exception message. -/
def formatError : PyErr → String
  | .network msg url code => msg ++ " [url=" ++ url ++ ", code=" ++ toString code ++ "]"
  | .generic msg => msg

/-- Modelled from the spec: the document collaborator (document.py over the
krita API).  Layers are identified by `Nat` ids: `attached` are the layers
currently attached to the root node (`parentNode()` non-None),
`activeLayer` is `Document.active_layer` (document.py line 117),
`nextLayer` feeds fresh ids for `insert_layer` (document.py lines 77-90). -/
structure DocState where
  attached : List Nat
  activeLayer : Nat
  nextLayer : Nat
  deriving DecidableEq, Repr

/-- The parts of `Model` (model.py lines 135-162) that the analysed claims
touch: the job queue, the strength parameter, progress, the user-visible
error string, the preview layer reference `_layer`, the images of the control
specs (keyed by spec identity, modelling `control.image` mutation), and the
document collaborator state. -/
structure ModelState where
  jobs : JobQueue
  strength : ℚ
  progress : ℚ
  error : String
  layer : Option Nat
  controlImages : List (Nat × Nat)
  doc : DocState
  deriving DecidableEq, Repr

/-- Python `Model.clear_error` (model.py lines 268-271). -/
def clearError (m : ModelState) : ModelState :=
  { m with error := "" }

/-- Image of a control spec: first binding wins, modelling attribute
mutation on the spec object. -/
def lookupControlImage (l : List (Nat × Nat)) (c : Nat) : Option Nat :=
  (l.find? (fun p => p.1 = c)).map (fun p => p.2)

/-- Python `Model.generate` + `_report_errors(self, self._generate(...))`
(model.py lines 169-229), given the outcome of the suspending
build-and-enqueue steps as `enqueue` (`.ok id` = the server-assigned id,
`.error e` = the exception raised by the workflow builder or the network
call).  A failing branch assertion (lines 215/218/221/224) raises
`AssertionError`, which `_report_errors` catches as a generic exception. -/
def submitGenerate (m : ModelState) (hasImage hasMask : Bool) (freshRef : Nat)
    (prompt : String) (bounds : Bounds) (enqueue : Except PyErr String) :
    ModelState :=
  let m0 := clearError m
  let m1 := if m0.jobs.anyExecuting then m0 else { m0 with progress := 0 }
  match selectWorkflow hasImage hasMask m.strength with
  | none => { m1 with error := formatError (PyErr.generic "AssertionError") }
  | some _ =>
    match enqueue with
    | .ok jid => { m1 with jobs := m1.jobs.add freshRef jid prompt bounds }
    | .error e => { m1 with error := formatError e }

/-- Python `Model.generate_control_layer` + `_report_errors(self,
self._generate_control_layer(...))` (model.py lines 237-255): the control
job is appended to the queue *before* the suspending enqueue call; on success
the server id is attached to the queued job, on failure the error is
recorded. -/
def submitControlLayer (m : ModelState) (controlRef freshRef : Nat)
    (modeText : String) (bounds : Bounds) (enqueue : Except PyErr String) :
    ModelState :=
  let m1 := clearError { m with jobs := m.jobs.addControl freshRef controlRef modeText bounds }
  match enqueue with
  | .ok jid =>
    { m1 with jobs := ⟨m1.jobs.entries.map
        (fun j => if j.ref = freshRef then { j with id := some jid } else j),
        m1.jobs.memoryUsage⟩ }
  | .error e => { m1 with error := formatError e }

/-! ### Server messages (`Model.handle_message`, model.py lines 273-296) -/

/-- The event tag and payload of a `ClientMessage` (tagged-union model of the
`event`/`progress`/`images`/`error` fields used by `handle_message`). -/
inductive ClientEvent where
  | progress (value : ℚ)
  | finished (images : ImageCollection)
  | interrupted
  | error (message : String)
  deriving DecidableEq, Repr

/-- A server message: job id plus event. -/
structure ClientMessage where
  job_id : String
  event : ClientEvent
  deriving DecidableEq, Repr

/-- Mutate `job.state` on the object with identity `r` (visible through every
queue entry aliasing it). -/
def setState (l : List Job) (r : Nat) (s : State) : List Job :=
  l.map (fun j => if j.ref = r then { j with state := s } else j)

/-- Python `Model.show_preview` (model.py lines 298-309): re-find the job by id, drop
a detached preview layer reference, then either overwrite the existing
preview layer or insert a fresh locked layer with `results[index]`.
`none` models the failures (`find` returning `None`, IndexError on
`results[index]`). -/
def showPreview (m : ModelState) (jid : String) (index : Nat) : Option ModelState :=
  match findById m.jobs.entries jid with
  | none => none
  | some job =>
    match job.results.images.get? index with
    | none => none
    | some _ =>
      let attachedLayer := match m.layer with
        | some l => if m.doc.attached.contains l then some l else none
        | none => none
      match attachedLayer with
      | some l => some { m with layer := some l }
      | none =>
        some { m with
          layer := some m.doc.nextLayer,
          doc := { m.doc with
            attached := m.doc.attached ++ [m.doc.nextLayer],
            nextLayer := m.doc.nextLayer + 1 } }

/-- Python `Model.add_control_layer` (model.py lines 324-328): for a control job,
insert a layer from `results[0]` if any result exists, otherwise return the
document's active layer.  Returns the updated model and the layer. -/
def addControlLayer (m : ModelState) (job : Job) : Option (ModelState × Nat) :=
  if job.kind = JobKind.control_layer then
    match job.results.images with
    | _ :: _ =>
      some ({ m with doc := { m.doc with
          attached := m.doc.attached ++ [m.doc.nextLayer],
          nextLayer := m.doc.nextLayer + 1 } }, m.doc.nextLayer)
    | [] => some (m, m.doc.activeLayer)
  else none

/-- Python `Model.handle_message` (model.py lines 273-296).  `none` models an
uncaught exception (the unknown-job assertion on line 275, or a failure in
one of the called helpers). -/
def handleMessage (ceiling : ℚ) (m : ModelState) (msg : ClientMessage) :
    Option ModelState :=
  match findById m.jobs.entries msg.job_id with
  | none => none
  | some job =>
    match msg.event with
    | .progress v =>
      some { m with
        jobs := ⟨setState m.jobs.entries job.ref State.executing, m.jobs.memoryUsage⟩,
        progress := v }
    | .finished images =>
      let job1 : Job := { job with state := State.finished }
      let q1 : JobQueue := ⟨setState m.jobs.entries job.ref State.finished, m.jobs.memoryUsage⟩
      match q1.setResults ceiling job1 images with
      | none => none
      | some q2 =>
        let m2 := { m with jobs := q2, progress := 1 }
        let afterPreview : Option ModelState :=
          if job1.kind = JobKind.diffusion ∧ m2.layer = none then
            match job1.id with
            | some jid => showPreview m2 jid 0
            | none => none
          else some m2
        match afterPreview with
        | none => none
        | some m3 =>
          if job1.kind = JobKind.control_layer then
            match job1.control with
            | none => none
            | some cref =>
              let job2 : Job := { job1 with results := images }
              match addControlLayer m3 job2 with
              | none => none
              | some (m4, img) =>
                match m4.jobs.remove job2 with
                | none => none
                | some q5 =>
                  some { m4 with
                    jobs := q5,
                    controlImages := (cref, img) :: m4.controlImages }
          else some m3
    | .interrupted =>
      some { m with
        jobs := ⟨setState m.jobs.entries job.ref State.cancelled, m.jobs.memoryUsage⟩,
        progress := 0 }
    | .error emsg =>
      some { m with
        jobs := ⟨setState m.jobs.entries job.ref State.cancelled, m.jobs.memoryUsage⟩,
        error := "Server execution error: " ++ emsg }

/-- Handle a list of server messages in order, propagating failure. -/
def processMessages (ceiling : ℚ) : ModelState → List ClientMessage → Option ModelState
  | m, [] => some m
  | m, msg :: rest =>
    match handleMessage ceiling m msg with
    | some m2 => processMessages ceiling m2 rest
    | none => none

/-- One round of `ModelRegistry._handle_messages_impl` (model.py lines
403-413): find the first model whose queue knows the job id
(`_find_model`) and let it handle the message; when no model matches, the
message is dropped. -/
def registryHandle (ceiling : ℚ) : List ModelState → ClientMessage → Option (List ModelState)
  | [], _ => some []
  | m :: rest, msg =>
    if (findById m.jobs.entries msg.job_id).isSome then
      (handleMessage ceiling m msg).map (fun m2 => m2 :: rest)
    else
      (registryHandle ceiling rest msg).map (fun l => m :: l)


/-! ### Concrete fixtures used in witnesses and counterexamples -/

/-- A 512x512 region at the origin. -/
def bounds0 : Bounds := ⟨0, 0, 512, 512⟩

/-- A result image of exactly `n` MB (n * 2^20 bytes). -/
def imgMB (n : Nat) : Image := ⟨n * 1048576⟩

/-- A finished diffusion job with one result of `szMB` MB. -/
def jobD (r : Nat) (id : String) (szMB : Nat) : Job :=
  ⟨r, some id, JobKind.diffusion, State.finished, "p", bounds0, none, ⟨[imgMB szMB]⟩⟩

/-- A fresh model over an empty document state, strength 1. -/
def model0 : ModelState :=
  ⟨JobQueue.empty, 1, 0, "", none, [], ⟨[], 3, 10⟩⟩

/-- A model holding one queued diffusion job with id "a" and an attached
preview layer. -/
def modelA : ModelState :=
  ⟨⟨[⟨0, some "a", JobKind.diffusion, State.queued, "p", bounds0, none, ⟨[]⟩⟩], 0⟩,
   1, 0, "", some 5, [], ⟨[5], 3, 10⟩⟩

/-- A model holding one executing control-layer job with id "c",
back-referencing control spec 9. -/
def modelC : ModelState :=
  ⟨⟨[⟨0, some "c", JobKind.control_layer, State.executing, "[Control] x", bounds0,
    some 9, ⟨[]⟩⟩], 0⟩,
   1, 0, "", none, [], ⟨[], 3, 10⟩⟩

/-- Call sequence of the C2 witness: two diffusion jobs, each given results
once; the second result (200MB) exceeds the 100MB ceiling and evicts the
first job. -/
def seqW : List QOp :=
  [QOp.add 0 "a" "p" bounds0, QOp.setResults 0 ⟨[imgMB 1]⟩,
   QOp.add 1 "b" "q" bounds0, QOp.setResults 1 ⟨[imgMB 200]⟩]

/-- The queue reached by `seqW` under a 100MB ceiling. -/
def seqWq : JobQueue := (runOps 100 seqW).getD JobQueue.empty

/-- A model with a finished job "a" (1MB of results) and a queued job "b". -/
def modelB : ModelState :=
  ⟨⟨[⟨0, some "a", JobKind.diffusion, State.finished, "p", bounds0, none, ⟨[imgMB 1]⟩⟩,
     ⟨1, some "b", JobKind.diffusion, State.queued, "q", bounds0, none, ⟨[]⟩⟩], 1⟩,
   1, 0, "", some 5, [], ⟨[5], 3, 10⟩⟩

/-- The model reached from `modelB` after a progress message for job "b". -/
def modelB2 : ModelState :=
  (processMessages 100 modelB [⟨"b", ClientEvent.progress 0⟩]).getD modelB

/-! ### Predicates used to state the retention invariant -/

/-- Footprint (in MB) of the results of all jobs in a list, any kind. -/
def totalFootprint (l : List Job) : ℚ :=
  (l.map (fun j => mb j.results.size)).sum

/-- True for the operations named by the spec sentence behind C2:
plain `add` and `set_results`. -/
def isAddOrSet : QOp → Bool
  | QOp.add _ _ _ _ => true
  | QOp.setResults _ _ => true
  | _ => false

/-- The job refs targeted by the `setResults` calls of a sequence. -/
def setRefs (ops : List QOp) : List Nat :=
  ops.filterMap (fun op => match op with
    | QOp.setResults r _ => some r
    | _ => none)

/-- Invariant carried through a call sequence: the tracked memory matches the
retained diffusion footprints, every entry is a diffusion job, object
identities are unambiguous, and jobs still awaiting a `setResults` call hold
no results yet. -/
def QueueInv (srefs : List Nat) (q : JobQueue) : Prop :=
  q.memoryUsage = diffusionFootprint q.entries
  ∧ (∀ j ∈ q.entries, j.kind = JobKind.diffusion)
  ∧ (q.entries.map Job.ref).Nodup
  ∧ (∀ r ∈ srefs, ∀ j ∈ q.entries, j.ref = r → j.results = ⟨[]⟩)

/-! ### Lemmas about the prune loop -/

/-- If a job with the identity of `keep` occurs in the list, the prune loop
terminates without an IndexError and that job survives. -/
theorem pruneLoop_keeps (ceiling : ℚ) (keep : Job) :
    ∀ (l : List Job) (mem : ℚ), (∃ j ∈ l, j.ref = keep.ref) →
    ∃ mem2 l2, pruneLoop ceiling keep mem l = some (mem2, l2) ∧
      ∃ j ∈ l2, j.ref = keep.ref := by
  intro l
  induction l with
  | nil =>
    intro mem h
    rcases h with ⟨j, hj, _⟩
    exact absurd hj (List.not_mem_nil j)
  | cons a rest ih =>
    intro mem h
    by_cases hc : ceiling < mem
    · by_cases ha : a.ref = keep.ref
      · exact ⟨mem, a :: rest, by simp [pruneLoop, hc, ha],
          ⟨a, List.mem_cons_self a rest, ha⟩⟩
      · rcases h with ⟨j, hj, hjr⟩
        have hj' : j ∈ rest := by
          rcases List.mem_cons.mp hj with h1 | h1
          · subst h1; exact absurd hjr ha
          · exact h1
        rcases ih (mem - mb a.results.size) ⟨j, hj', hjr⟩ with ⟨m2, l2, heq, hk⟩
        exact ⟨m2, l2, by simp [pruneLoop, hc, ha, heq], hk⟩
    · exact ⟨mem, a :: rest, by simp [pruneLoop, hc], h⟩

/-- The prune loop on `pre ++ k :: post`, where `k` has the identity of
`keep` and nothing in `pre` does, stops no later than `k`: it returns a
suffix of `pre` followed by `k :: post` untouched. -/
theorem pruneLoop_split (ceiling : ℚ) (keep : Job) :
    ∀ (pre post : List Job) (mem : ℚ) (k : Job),
    k.ref = keep.ref → (∀ j ∈ pre, j.ref ≠ keep.ref) →
    ∃ mem2 pre2, pre2 <:+ pre ∧
      pruneLoop ceiling keep mem (pre ++ k :: post) = some (mem2, pre2 ++ k :: post) := by
  intro pre
  induction pre with
  | nil =>
    intro post mem k hk _
    by_cases hc : ceiling < mem
    · exact ⟨mem, [], List.nil_suffix, by simp [pruneLoop, hc, hk]⟩
    · exact ⟨mem, [], List.nil_suffix, by simp [pruneLoop, hc]⟩
  | cons a pre ih =>
    intro post mem k hk hpre
    by_cases hc : ceiling < mem
    · have ha : a.ref ≠ keep.ref := hpre a (List.mem_cons_self a pre)
      rcases ih post (mem - mb a.results.size) k hk
          (fun j hj => hpre j (List.mem_cons_of_mem a hj)) with ⟨m2, p2, hs, heq⟩
      exact ⟨m2, p2, hs.trans (List.suffix_cons a pre),
        by simp [pruneLoop, hc, ha, heq]⟩
    · exact ⟨mem, a :: pre, List.suffix_refl _, by simp [pruneLoop, hc]⟩

/-- C1: for every `JobQueue` state whose entries contain the job `keep`
(by object identity), `prune(keep)` succeeds and never removes `keep` from
the queue — even when, after all other evictions, the tracked footprint
still exceeds the ceiling. -/
theorem prune_never_evicts_keep (ceiling : ℚ) (q : JobQueue) (keep : Job)
    (h : ∃ j ∈ q.entries, j.ref = keep.ref) :
    ∃ q2, q.prune ceiling keep = some q2 ∧ ∃ j ∈ q2.entries, j.ref = keep.ref := by
  rcases pruneLoop_keeps ceiling keep q.entries q.memoryUsage h with ⟨m2, l2, heq, hk⟩
  exact ⟨⟨l2, m2⟩, by simp [JobQueue.prune, heq], hk⟩

/-- Witness for C1, at a state where even after evicting every other job the
footprint (90MB from `keep` alone) still exceeds the 50MB ceiling. -/
theorem prune_never_evicts_keep_witness :
    ∃ q2, (⟨[jobD 0 "a" 80, jobD 1 "b" 90], 170⟩ : JobQueue).prune 50 (jobD 1 "b" 90)
        = some q2 ∧ ∃ j ∈ q2.entries, j.ref = (jobD 1 "b" 90).ref :=
  prune_never_evicts_keep 50 ⟨[jobD 0 "a" 80, jobD 1 "b" 90], 170⟩ (jobD 1 "b" 90)
    ⟨jobD 1 "b" 90, by decide, rfl⟩

/-- C10: `prune(keep)` removes only jobs strictly older than `keep`: when the
entries split as `pre ++ keep :: post` with `keep`'s identity absent from
`pre`, the pruned queue is a suffix of `pre` followed by `keep :: post`
unchanged — so every job at `keep`'s position or later is retained, and the
footprint may stay above the ceiling when the over-ceiling results belong to
jobs newer than `keep`. -/
theorem prune_evicts_only_older (ceiling : ℚ) (q : JobQueue) (keep : Job)
    (pre post : List Job)
    (hsplit : q.entries = pre ++ keep :: post)
    (hpre : ∀ j ∈ pre, j.ref ≠ keep.ref) :
    ∃ mem2 pre2, pre2 <:+ pre ∧
      q.prune ceiling keep = some ⟨pre2 ++ keep :: post, mem2⟩ := by
  rcases pruneLoop_split ceiling keep pre post q.memoryUsage keep rfl hpre with
    ⟨m2, p2, hs, heq⟩
  exact ⟨m2, p2, hs, by simp [JobQueue.prune, hsplit, heq]⟩

/-- Witness for C10: the 30MB job older than `keep` is evictable, the 150MB
`keep` job itself keeps the footprint above the 100MB ceiling. -/
theorem prune_evicts_only_older_witness :
    ∃ mem2 pre2, pre2 <:+ [jobD 0 "a" 30] ∧
      (⟨[jobD 0 "a" 30, jobD 1 "b" 150], 180⟩ : JobQueue).prune 100 (jobD 1 "b" 150)
        = some ⟨pre2 ++ jobD 1 "b" 150 :: [], mem2⟩ :=
  prune_evicts_only_older 100 ⟨[jobD 0 "a" 30, jobD 1 "b" 150], 180⟩ (jobD 1 "b" 150)
    [jobD 0 "a" 30] [] rfl (by decide)

/-- Counterexample to C3: `prune` evicts jobs from the front of the queue
regardless of their kind.  In the reachable state built by
add_control; add; set_results (a 150MB result against a 100MB ceiling), the
control-layer job (ref 0) is removed from the queue by the prune triggered
inside set_results, although no explicit `remove` call was made. -/
theorem prune_removes_control_job_cex :
    (runOps 100 [QOp.addControl 0 7 "scribble" bounds0, QOp.add 1 "a" "p" bounds0,
        QOp.setResults 1 ⟨[imgMB 150]⟩]).map (fun q => q.entries.map Job.ref)
      = some [1]
    ∧ (runOps 100 [QOp.addControl 0 7 "scribble" bounds0, QOp.add 1 "a" "p" bounds0]).map
        (fun q => q.entries.map (fun j => (j.ref, j.kind)))
      = some [(0, JobKind.control_layer), (1, JobKind.diffusion)] := by
  constructor
  · norm_num [runOps, runOpsFrom, applyOp, JobQueue.addControl, JobQueue.add,
      JobQueue.setResults, JobQueue.empty, pruneLoop, mb, ImageCollection.size,
      imgMB, bounds0, List.find?, List.any]
  · decide

/-- C3 (amended): a control-kind job is not exempt from memory-based
retention in general, but one sitting at `keep`'s queue position or later is
never removed by `prune`; control jobs strictly older than `keep` may be
evicted by the pruning loop, and otherwise leave the queue only through an
explicit `remove` call. -/
theorem control_at_or_after_keep_survives (ceiling : ℚ) (q : JobQueue)
    (keep c : Job) (pre post : List Job)
    (hsplit : q.entries = pre ++ keep :: post)
    (hpre : ∀ j ∈ pre, j.ref ≠ keep.ref)
    (hckind : c.kind = JobKind.control_layer)
    (hcmem : c ∈ keep :: post) :
    ∃ q2, q.prune ceiling keep = some q2 ∧ c ∈ q2.entries := by
  rcases pruneLoop_split ceiling keep pre post q.memoryUsage keep rfl hpre with
    ⟨m2, p2, hs, heq⟩
  exact ⟨⟨p2 ++ keep :: post, m2⟩, by simp [JobQueue.prune, hsplit, heq],
    List.mem_append_right p2 hcmem⟩

/-- Witness for the amended C3: a control job newer than `keep` survives a
prune that runs with the footprint above the ceiling. -/
theorem control_at_or_after_keep_survives_witness :
    ∃ q2, (⟨[jobD 0 "a" 150, jobD 1 "b" 20,
        ⟨2, none, JobKind.control_layer, State.queued, "[Control] x", bounds0, some 9, ⟨[]⟩⟩],
        170⟩ : JobQueue).prune 100 (jobD 1 "b" 20) = some q2 ∧
      (⟨2, none, JobKind.control_layer, State.queued, "[Control] x", bounds0, some 9, ⟨[]⟩⟩ : Job)
        ∈ q2.entries :=
  control_at_or_after_keep_survives 100 _ (jobD 1 "b" 20)
    ⟨2, none, JobKind.control_layer, State.queued, "[Control] x", bounds0, some 9, ⟨[]⟩⟩
    [jobD 0 "a" 150]
    [⟨2, none, JobKind.control_layer, State.queued, "[Control] x", bounds0, some 9, ⟨[]⟩⟩]
    rfl (by decide) rfl (by decide)

/-! ### Memory accounting (C2) -/

/-- Counterexample to C2: in the call sequence add; set_results; set_results
(on the same job), the tracked memory usage (2 MB) differs from the sum of
the retained diffusion jobs' footprints (1 MB): the footprint of the first,
overwritten result collection is never subtracted. -/
theorem memory_usage_double_set_results_cex :
    (runOps 1000 [QOp.add 0 "a" "p" bounds0, QOp.setResults 0 ⟨[imgMB 1]⟩,
        QOp.setResults 0 ⟨[imgMB 1]⟩]).map
      (fun q => (q.memoryUsage, diffusionFootprint q.entries)) = some (2, 1) := by
  norm_num [runOps, runOpsFrom, applyOp, JobQueue.add, JobQueue.setResults,
    JobQueue.empty, pruneLoop, mb, diffusionFootprint, ImageCollection.size,
    imgMB, bounds0, List.find?]

theorem mb_zero : mb 0 = 0 := by
  simp [mb]

theorem totalFootprint_cons (j : Job) (l : List Job) :
    totalFootprint (j :: l) = mb j.results.size + totalFootprint l := by
  simp [totalFootprint]

theorem diffusionFootprint_eq_total (l : List Job)
    (h : ∀ j ∈ l, j.kind = JobKind.diffusion) :
    diffusionFootprint l = totalFootprint l := by
  unfold diffusionFootprint totalFootprint
  rw [List.filter_eq_self.mpr (fun a ha => by simpa using h a ha)]

theorem diffusionFootprint_append (l1 l2 : List Job) :
    diffusionFootprint (l1 ++ l2) = diffusionFootprint l1 + diffusionFootprint l2 := by
  simp [diffusionFootprint]

/-- The prune loop pops a suffix and subtracts exactly the footprints of the
popped entries. -/
theorem pruneLoop_conserves (ceiling : ℚ) (keep : Job) :
    ∀ (l : List Job) (mem mem2 : ℚ) (l2 : List Job),
    pruneLoop ceiling keep mem l = some (mem2, l2) →
    l2 <:+ l ∧ mem2 - totalFootprint l2 = mem - totalFootprint l := by
  intro l
  induction l with
  | nil =>
    intro mem mem2 l2 h
    by_cases hc : ceiling < mem
    · simp [pruneLoop, hc] at h
    · simp [pruneLoop, hc] at h
      rcases h with ⟨rfl, rfl⟩
      exact ⟨List.suffix_refl _, rfl⟩
  | cons a rest ih =>
    intro mem mem2 l2 h
    by_cases hc : ceiling < mem
    · by_cases ha : a.ref = keep.ref
      · simp [pruneLoop, hc, ha] at h
        rcases h with ⟨rfl, rfl⟩
        exact ⟨List.suffix_refl _, rfl⟩
      · simp only [pruneLoop, if_pos hc, if_neg ha] at h
        rcases ih _ _ _ h with ⟨hs, heq⟩
        refine ⟨hs.trans (List.suffix_cons a rest), ?_⟩
        rw [totalFootprint_cons]
        linarith
    · simp [pruneLoop, hc] at h
      rcases h with ⟨rfl, rfl⟩
      exact ⟨List.suffix_refl _, rfl⟩

/-- Updating an object that is not aliased in the list leaves it unchanged. -/
theorem map_update_eq_self (r : Nat) (upd : Job → Job) :
    ∀ l : List Job, (∀ x ∈ l, x.ref ≠ r) →
    l.map (fun x => if x.ref = r then upd x else x) = l := by
  intro l
  induction l with
  | nil => intro _; rfl
  | cons a rest ih =>
    intro h
    simp only [List.map_cons, if_neg (h a (List.mem_cons_self a rest))]
    rw [ih (fun x hx => h x (List.mem_cons_of_mem a hx))]

/-- Ref-keyed in-place updates preserve the list of object identities. -/
theorem map_ref_update (r : Nat) (upd : Job → Job)
    (hupd : ∀ x, (upd x).ref = x.ref) :
    ∀ l : List Job,
    (l.map (fun x => if x.ref = r then upd x else x)).map Job.ref = l.map Job.ref := by
  intro l
  induction l with
  | nil => rfl
  | cons a rest ih =>
    by_cases ha : a.ref = r
    · simp only [List.map_cons, if_pos ha, ih, hupd a]
    · simp only [List.map_cons, if_neg ha, ih]

/-- Attaching results `res` to the (unique, previously result-free) job with
identity `r` raises the total footprint by exactly `mb res.size`. -/
theorem totalFootprint_update (r : Nat) (res : ImageCollection) :
    ∀ l : List Job,
    (∀ x ∈ l, x.ref = r → x.results = ⟨[]⟩) →
    (l.map Job.ref).Nodup →
    (∃ x ∈ l, x.ref = r) →
    totalFootprint (l.map (fun x => if x.ref = r then { x with results := res } else x))
      = totalFootprint l + mb res.size := by
  intro l
  induction l with
  | nil =>
    intro _ _ h
    rcases h with ⟨x, hx, _⟩
    exact absurd hx (List.not_mem_nil x)
  | cons a rest ih =>
    intro hemp hnd hex
    rw [List.map_cons] at hnd
    rcases List.nodup_cons.mp hnd with ⟨hna, hnd2⟩
    by_cases ha : a.ref = r
    · have hrest : ∀ x ∈ rest, x.ref ≠ r := by
        intro x hx hxr
        apply hna
        have hm := List.mem_map_of_mem Job.ref hx
        rw [hxr] at hm
        rw [ha]
        exact hm
      rw [List.map_cons, if_pos ha, map_update_eq_self r _ rest hrest,
        totalFootprint_cons, totalFootprint_cons,
        hemp a (List.mem_cons_self a rest) ha]
      simp [ImageCollection.size, mb_zero]
      ring
    · rcases hex with ⟨x, hx, hxr⟩
      have hx' : x ∈ rest := by
        rcases List.mem_cons.mp hx with h1 | h1
        · subst h1; exact absurd hxr ha
        · exact h1
      rw [List.map_cons, if_neg ha, totalFootprint_cons, totalFootprint_cons,
        ih (fun y hy => hemp y (List.mem_cons_of_mem a hy)) hnd2 ⟨x, hx', hxr⟩]
      ring

/-- Preservation of the retention invariant along an add/set_results call
sequence whose `setResults` targets are pairwise distinct. -/
theorem runOpsFrom_queueInv (ceiling : ℚ) :
    ∀ (ops : List QOp) (q q2 : JobQueue),
    (∀ op ∈ ops, isAddOrSet op = true) →
    (setRefs ops).Nodup →
    QueueInv (setRefs ops) q →
    runOpsFrom ceiling q ops = some q2 →
    QueueInv [] q2 := by
  intro ops
  induction ops with
  | nil =>
    intro q q2 _ _ hinv hrun
    simp [runOpsFrom] at hrun
    subst hrun
    exact ⟨hinv.1, hinv.2.1, hinv.2.2.1, by simp⟩
  | cons op ops ih =>
    intro q q2 hops hnd hinv hrun
    rcases hinv with ⟨hmem, hdiff, hndq, hfresh⟩
    simp only [runOpsFrom] at hrun
    cases hap : applyOp ceiling q op with
    | none => rw [hap] at hrun; exact absurd hrun (by simp)
    | some q1 =>
      rw [hap] at hrun
      have hops2 : ∀ o ∈ ops, isAddOrSet o = true :=
        fun o ho => hops o (List.mem_cons_of_mem op ho)
      cases op with
      | add r i p b =>
        have hsr : setRefs (QOp.add r i p b :: ops) = setRefs ops := by
          simp [setRefs]
        rw [hsr] at hnd hfresh
        simp only [applyOp] at hap
        cases hfr : q.entries.any (fun j => j.ref = r) with
        | true => rw [hfr] at hap; exact absurd hap (by simp)
        | false =>
          rw [hfr] at hap
          simp at hap
          subst hap
          have hfreshref : ∀ j ∈ q.entries, j.ref ≠ r := by
            intro j hj hjr
            have : q.entries.any (fun j => j.ref = r) = true :=
              List.any_eq_true.mpr ⟨j, hj, by simp [hjr]⟩
            rw [hfr] at this
            exact Bool.noConfusion this
          refine ih _ q2 hops2 hnd ⟨?_, ?_, ?_, ?_⟩ hrun
          · show q.memoryUsage = diffusionFootprint (q.entries ++ [_])
            rw [diffusionFootprint_append, hmem]
            simp [diffusionFootprint, ImageCollection.size, mb_zero]
          · intro j hj
            rcases List.mem_append.mp hj with h1 | h1
            · exact hdiff j h1
            · rcases List.mem_singleton.mp h1 with rfl
              rfl
          · show ((q.entries ++ [_]).map Job.ref).Nodup
            rw [List.map_append]
            refine List.nodup_append.mpr ⟨hndq, List.nodup_singleton r, ?_⟩
            intro a ha hb
            rcases List.mem_singleton.mp hb with rfl
            rcases List.mem_map.mp ha with ⟨j, hj, hjr⟩
            exact hfreshref j hj hjr
          · intro r2 hr2 j hj hjr
            rcases List.mem_append.mp hj with h1 | h1
            · exact hfresh r2 hr2 j h1 hjr
            · rcases List.mem_singleton.mp h1 with rfl
              rfl
      | setResults jr res =>
        have hsr : setRefs (QOp.setResults jr res :: ops) = jr :: setRefs ops := by
          simp [setRefs]
        rw [hsr] at hnd hfresh
        rcases List.nodup_cons.mp hnd with ⟨hjrnin, hnd2⟩
        simp only [applyOp] at hap
        cases hfind : q.entries.find? (fun j => j.ref = jr) with
        | none => rw [hfind] at hap; exact absurd hap (by simp)
        | some j =>
          rw [hfind] at hap
          have hjmem : j ∈ q.entries := List.mem_of_find?_eq_some hfind
          have hjref : j.ref = jr := by simpa using List.find?_some hfind
          have hjkind : j.kind = JobKind.diffusion := hdiff j hjmem
          simp only [JobQueue.setResults, if_pos hjkind] at hap
          cases hpl : pruneLoop ceiling { j with results := res }
              (q.memoryUsage + mb res.size)
              (q.entries.map (fun x => if x.ref = j.ref then { x with results := res } else x)) with
          | none => rw [hpl] at hap; exact absurd hap (by simp)
          | some p =>
            rw [hpl] at hap
            simp at hap
            subst hap
            rcases pruneLoop_conserves ceiling { j with results := res } _ _ _ _ hpl with
              ⟨hsuf, hcons⟩
            have hempj : ∀ x ∈ q.entries, x.ref = j.ref → x.results = ⟨[]⟩ := by
              intro x hx hxr
              exact hfresh jr (List.mem_cons_self jr _) x hx (hjref ▸ hxr)
            have hup : totalFootprint
                (q.entries.map (fun x => if x.ref = j.ref then { x with results := res } else x))
                = totalFootprint q.entries + mb res.size :=
              totalFootprint_update j.ref res q.entries hempj hndq ⟨j, hjmem, rfl⟩
            have hdiff1 : ∀ x ∈ q.entries.map
                (fun x => if x.ref = j.ref then { x with results := res } else x),
                x.kind = JobKind.diffusion := by
              intro x hx
              rcases List.mem_map.mp hx with ⟨y, hy, hyx⟩
              by_cases hyr : y.ref = j.ref
              · rw [if_pos hyr] at hyx
                rw [← hyx]
                exact hdiff y hy
              · rw [if_neg hyr] at hyx
                rw [← hyx]
                exact hdiff y hy
            have hdiff2 : ∀ x ∈ p.2, x.kind = JobKind.diffusion :=
              fun x hx => hdiff1 x (hsuf.subset hx)
            have hmem2 : p.1 = diffusionFootprint p.2 := by
              rw [diffusionFootprint_eq_total p.2 hdiff2]
              have htotq : totalFootprint q.entries = q.memoryUsage := by
                rw [hmem, diffusionFootprint_eq_total q.entries hdiff]
              rw [hup, htotq] at hcons
              linarith
            refine ih ⟨p.2, p.1⟩ q2 hops2 hnd2 ⟨hmem2, hdiff2, ?_, ?_⟩ hrun
            · have hrefs : (q.entries.map
                  (fun x => if x.ref = j.ref then { x with results := res } else x)).map Job.ref
                  = q.entries.map Job.ref :=
                map_ref_update j.ref (fun x => { x with results := res }) (fun _ => rfl) q.entries
              have : (p.2.map Job.ref).Sublist (q.entries.map Job.ref) := by
                rw [← hrefs]
                exact (hsuf.sublist).map Job.ref
              exact hndq.sublist this
            · intro r2 hr2 x hx hxr
              rcases List.mem_map.mp (hsuf.subset hx) with ⟨y, hy, hyx⟩
              by_cases hyr : y.ref = j.ref
              · rw [if_pos hyr] at hyx
                have : x.ref = j.ref := by rw [← hyx]; exact hyr
                rw [this] at hxr
                rw [hjref] at hxr
                exact absurd (hxr ▸ hr2) hjrnin
              · rw [if_neg hyr] at hyx
                rw [← hyx]
                exact hfresh r2 (List.mem_cons_of_mem jr hr2) y hy (by rw [hyx]; exact hxr)
      | addControl r cr mt b =>
        exact absurd (hops _ (List.mem_cons_self _ _)) (by simp [isAddOrSet])
      | remove jr =>
        exact absurd (hops _ (List.mem_cons_self _ _)) (by simp [isAddOrSet])
      | assignId jr i =>
        exact absurd (hops _ (List.mem_cons_self _ _)) (by simp [isAddOrSet])

/-- C2 (amended): for every sequence of `add` and `set_results` calls in
which no job receives results twice, the queue's tracked memory usage equals
the sum of the result footprints (in MB) of the diffusion jobs currently
retained.  (As universally stated the claim fails: a second `set_results` on
the same job adds its new footprint without subtracting the old one.) -/
theorem memory_usage_eq_diffusion_sum (ceiling : ℚ) (ops : List QOp) (q : JobQueue)
    (hops : ∀ op ∈ ops, isAddOrSet op = true)
    (hnodup : (setRefs ops).Nodup)
    (hrun : runOps ceiling ops = some q) :
    q.memoryUsage = diffusionFootprint q.entries := by
  have h0 : QueueInv (setRefs ops) JobQueue.empty := by
    refine ⟨by simp [JobQueue.empty, diffusionFootprint], ?_, ?_, ?_⟩ <;>
      simp [JobQueue.empty]
  exact (runOpsFrom_queueInv ceiling ops JobQueue.empty q hops hnodup h0 hrun).1

/-- Witness for the amended C2: two jobs each given results once, the second
result (200MB) evicting the first against a 100MB ceiling. -/
theorem memory_usage_eq_diffusion_sum_witness :
    runOps 100 seqW = some seqWq
    ∧ seqWq.memoryUsage = diffusionFootprint seqWq.entries := by
  have hrun : runOps 100 seqW = some seqWq := by
    norm_num [seqW, seqWq, runOps, runOpsFrom, applyOp, JobQueue.add,
      JobQueue.setResults, JobQueue.empty, pruneLoop, mb, ImageCollection.size,
      imgMB, bounds0, List.find?, Option.getD]
  exact ⟨hrun, memory_usage_eq_diffusion_sum 100 seqW seqWq (by decide) (by decide) hrun⟩

/-! ### Workflow selection (C5) -/

/-- C5: `Model._generate` picks exactly one of the four workflow builders
from the two booleans: no image/no mask with strength 1 calls `generate`;
image without mask and strength < 1 calls `refine`; image and mask with
strength 1 calls `inpaint`; image and mask with strength < 1 calls
`refine_region`; and no image/no mask with strength ≠ 1 fails the `assert
strength == 1` precondition. -/
theorem workflow_selection (s : ℚ) :
    selectWorkflow false false 1 = some WorkflowKind.generateW
    ∧ (s < 1 → selectWorkflow true false s = some WorkflowKind.refineW)
    ∧ selectWorkflow true true 1 = some WorkflowKind.inpaintW
    ∧ (s < 1 → selectWorkflow true true s = some WorkflowKind.refineRegionW)
    ∧ (s ≠ 1 → selectWorkflow false false s = none) := by
  refine ⟨by simp [selectWorkflow], ?_, by simp [selectWorkflow], ?_, ?_⟩
  · intro hs
    simp [selectWorkflow, hs]
  · intro hs
    simp [selectWorkflow, hs, ne_of_lt hs]
  · intro hs
    simp [selectWorkflow, hs]

/-- Witness for C5 at strength 1/2 (and 2 for the precondition case). -/
theorem workflow_selection_witness :
    selectWorkflow true false (1 / 2) = some WorkflowKind.refineW
    ∧ selectWorkflow true true (1 / 2) = some WorkflowKind.refineRegionW
    ∧ selectWorkflow false false 2 = none :=
  ⟨(workflow_selection (1 / 2)).2.1 (by norm_num),
   (workflow_selection (1 / 2)).2.2.2.1 (by norm_num),
   (workflow_selection 2).2.2.2.2 (by norm_num)⟩

/-! ### Lookup by id and by control reference (C6) -/

/-- Counterexample to C6: after a control-layer submission resolves,
`_generate_control_layer` assigns the server id to the queued control job
(model.py line 254), and `find` with that string id returns the control
job.  The message dispatch relies on this. -/
theorem find_by_id_returns_control_cex :
    (runOps 100 [QOp.addControl 0 5 "scribble" bounds0, QOp.assignId 0 "c1"]).map
      (fun q => (findById q.entries "c1").map Job.kind)
      = some (some JobKind.control_layer) := by
  simp [runOps, runOpsFrom, applyOp, JobQueue.addControl, JobQueue.empty,
    findById, List.find?, bounds0]

theorem eraseFirstRef_subset : ∀ (l : List Job) (r : Nat), eraseFirstRef l r ⊆ l := by
  intro l
  induction l with
  | nil => intro r; simp [eraseFirstRef]
  | cons a rest ih =>
    intro r
    by_cases ha : a.ref = r
    · rw [eraseFirstRef, if_pos ha]
      intro x hx
      exact List.mem_cons_of_mem a hx
    · rw [eraseFirstRef, if_neg ha]
      exact List.cons_subset_cons a (ih r)

/-- Each queue call keeps the invariant that diffusion jobs carry no control
back-reference. -/
theorem applyOp_control_kind (ceiling : ℚ) (q q1 : JobQueue) (op : QOp)
    (hinv : ∀ x ∈ q.entries, x.kind = JobKind.diffusion → x.control = none)
    (hap : applyOp ceiling q op = some q1) :
    ∀ x ∈ q1.entries, x.kind = JobKind.diffusion → x.control = none := by
  cases op with
  | add r i p b =>
    simp only [applyOp] at hap
    cases hfr : q.entries.any (fun j => j.ref = r) with
    | true => rw [hfr] at hap; exact absurd hap (by simp)
    | false =>
      rw [hfr] at hap
      simp at hap
      subst hap
      intro x hx
      rcases List.mem_append.mp hx with h1 | h1
      · exact hinv x h1
      · rcases List.mem_singleton.mp h1 with rfl
        intro _
        rfl
  | addControl r cr mt b =>
    simp only [applyOp] at hap
    cases hfr : q.entries.any (fun j => j.ref = r) with
    | true => rw [hfr] at hap; exact absurd hap (by simp)
    | false =>
      rw [hfr] at hap
      simp at hap
      subst hap
      intro x hx
      rcases List.mem_append.mp hx with h1 | h1
      · exact hinv x h1
      · rcases List.mem_singleton.mp h1 with rfl
        intro hk
        exact absurd hk (by simp)
  | setResults jr res =>
    simp only [applyOp] at hap
    cases hfind : q.entries.find? (fun j => j.ref = jr) with
    | none => rw [hfind] at hap; exact absurd hap (by simp)
    | some j =>
      rw [hfind] at hap
      have hsub : q1.entries ⊆ q.entries.map
          (fun x => if x.ref = j.ref then { x with results := res } else x) := by
        simp only [JobQueue.setResults] at hap
        by_cases hk : j.kind = JobKind.diffusion
        · rw [if_pos hk] at hap
          cases hpl : pruneLoop ceiling { j with results := res }
              (q.memoryUsage + mb res.size)
              (q.entries.map (fun x => if x.ref = j.ref then { x with results := res } else x)) with
          | none => rw [hpl] at hap; exact absurd hap (by simp)
          | some p =>
            rw [hpl] at hap
            simp at hap
            subst hap
            exact (pruneLoop_conserves ceiling _ _ _ _ _ hpl).1.subset
        · rw [if_neg hk] at hap
          simp at hap
          subst hap
          exact fun x hx => hx
      intro x hx
      rcases List.mem_map.mp (hsub hx) with ⟨y, hy, hyx⟩
      by_cases hyr : y.ref = j.ref
      · rw [if_pos hyr] at hyx
        intro hk
        have : y.kind = JobKind.diffusion := by rw [← hyx] at hk; exact hk
        have := hinv y hy this
        rw [← hyx]
        exact this
      · rw [if_neg hyr] at hyx
        subst hyx
        exact hinv y hy
  | remove jr =>
    simp only [applyOp] at hap
    cases hfind : q.entries.find? (fun j => j.ref = jr) with
    | none => rw [hfind] at hap; exact absurd hap (by simp)
    | some j =>
      rw [hfind] at hap
      simp only [JobQueue.remove] at hap
      by_cases hk : j.kind = JobKind.control_layer
      · rw [if_pos hk] at hap
        cases hany : q.entries.any (fun x => x.ref = j.ref) with
        | false => rw [hany] at hap; exact absurd hap (by simp)
        | true =>
          rw [hany] at hap
          simp at hap
          subst hap
          exact fun x hx => hinv x (eraseFirstRef_subset q.entries j.ref hx)
      · rw [if_neg hk] at hap
        exact absurd hap (by simp)
  | assignId jr i =>
    simp only [applyOp] at hap
    cases hfind : q.entries.find? (fun j => j.ref = jr) with
    | none => rw [hfind] at hap; exact absurd hap (by simp)
    | some j =>
      rw [hfind] at hap
      simp at hap
      subst hap
      intro x hx
      rcases List.mem_map.mp hx with ⟨y, hy, hyx⟩
      by_cases hyr : y.ref = jr
      · rw [if_pos hyr] at hyx
        intro hk
        have : y.kind = JobKind.diffusion := by rw [← hyx] at hk; exact hk
        have := hinv y hy this
        rw [← hyx]
        exact this
      · rw [if_neg hyr] at hyx
        subst hyx
        exact hinv y hy

/-- The invariant holds in every queue reachable by a call sequence. -/
theorem runOpsFrom_control_kind (ceiling : ℚ) :
    ∀ (ops : List QOp) (q q2 : JobQueue),
    (∀ x ∈ q.entries, x.kind = JobKind.diffusion → x.control = none) →
    runOpsFrom ceiling q ops = some q2 →
    ∀ x ∈ q2.entries, x.kind = JobKind.diffusion → x.control = none := by
  intro ops
  induction ops with
  | nil =>
    intro q q2 hinv hrun
    simp [runOpsFrom] at hrun
    subst hrun
    exact hinv
  | cons op ops ih =>
    intro q q2 hinv hrun
    simp only [runOpsFrom] at hrun
    cases hap : applyOp ceiling q op with
    | none => rw [hap] at hrun; exact absurd hrun (by simp)
    | some q1 =>
      rw [hap] at hrun
      exact ih q1 q2 (applyOp_control_kind ceiling q q1 op hinv hap) hrun

/-- C6 (amended): in every queue reachable by a call sequence, `find` with a
control-spec reference never returns a diffusion job; `find` with a string
id, however, returns the first job whose id matches regardless of kind — a
control job that has been assigned its server id can be returned. -/
theorem find_by_control_not_diffusion (ceiling : ℚ) (ops : List QOp)
    (q : JobQueue) (c : Nat) (j : Job)
    (hrun : runOps ceiling ops = some q)
    (hfind : findByControl q.entries c = some j) :
    j.kind = JobKind.control_layer := by
  have hinv := runOpsFrom_control_kind ceiling ops JobQueue.empty q
    (by simp [JobQueue.empty]) hrun
  have hmem : j ∈ q.entries := List.mem_of_find?_eq_some hfind
  have hctl : j.control = some c := by simpa using List.find?_some hfind
  cases hk : j.kind with
  | control_layer => rfl
  | diffusion =>
    have := hinv j hmem hk
    rw [this] at hctl
    exact absurd hctl (by simp)

/-- Witness for the amended C6: the control job added by a single
add_control call is what a control-reference lookup returns. -/
theorem find_by_control_not_diffusion_witness :
    (⟨0, none, JobKind.control_layer, State.queued, "[Control] m", bounds0,
      some 5, ⟨[]⟩⟩ : Job).kind = JobKind.control_layer :=
  find_by_control_not_diffusion 100 [QOp.addControl 0 5 "m" bounds0]
    (JobQueue.addControl JobQueue.empty 0 5 "m" bounds0) 5
    ⟨0, none, JobKind.control_layer, State.queued, "[Control] m", bounds0,
      some 5, ⟨[]⟩⟩
    (by simp [runOps, runOpsFrom, applyOp, JobQueue.empty])
    (by simp [JobQueue.addControl, JobQueue.empty, findByControl, List.find?])

/-! ### Submission error handling (C4) -/

/-- Counterexample to C4: when the control-layer submission's enqueue call
fails with a network error, the error is caught and recorded, but the
control job pre-created by `generate_control_layer` before the suspension
point stays in the queue with its id unset — a partial job from the failed
submission. -/
theorem control_submission_error_leaves_job_cex :
    (submitControlLayer model0 7 0 "scribble" bounds0
        (Except.error (PyErr.network "refused" "http://x" 500))).error
      = "refused [url=http://x, code=500]"
    ∧ (submitControlLayer model0 7 0 "scribble" bounds0
        (Except.error (PyErr.network "refused" "http://x" 500))).jobs.entries.map
        (fun j => (j.ref, j.id, j.kind))
      = [(0, none, JobKind.control_layer)] := by
  constructor <;> rfl

/-- C4 (amended): every error raised in the asynchronous part of a
submission — including a structured network error carrying a URL and status
code — is caught and recorded as the Model's user-visible error string.  A
failed diffusion submission leaves the job queue exactly as it was (no
partial job); a failed control-layer submission leaves behind precisely the
control job appended before the suspension point, still without a server
id. -/
theorem submission_error_recorded (m : ModelState) (hasImage hasMask : Bool)
    (freshRef controlRef : Nat) (prompt modeText : String) (b : Bounds) (e : PyErr)
    (hsel : (selectWorkflow hasImage hasMask m.strength).isSome = true) :
    (submitGenerate m hasImage hasMask freshRef prompt b (Except.error e)).error
        = formatError e
    ∧ (submitGenerate m hasImage hasMask freshRef prompt b (Except.error e)).jobs
        = m.jobs
    ∧ (submitControlLayer m controlRef freshRef modeText b (Except.error e)).error
        = formatError e
    ∧ (submitControlLayer m controlRef freshRef modeText b (Except.error e)).jobs
        = m.jobs.addControl freshRef controlRef modeText b := by
  rcases hw : selectWorkflow hasImage hasMask m.strength with _ | w
  · rw [hw] at hsel
    exact absurd hsel (by simp)
  · refine ⟨?_, ?_, ?_, ?_⟩ <;>
      simp [submitGenerate, submitControlLayer, clearError, hw, apply_ite]

/-- Witness for the amended C4: a failing generic error on a pure-generation
submission and a failing network call on a control submission. -/
theorem submission_error_recorded_witness :
    (submitGenerate model0 false false 0 "p" bounds0
        (Except.error (PyErr.generic "boom"))).error = formatError (PyErr.generic "boom")
    ∧ (submitGenerate model0 false false 0 "p" bounds0
        (Except.error (PyErr.generic "boom"))).jobs = model0.jobs
    ∧ (submitControlLayer model0 7 0 "m" bounds0
        (Except.error (PyErr.generic "boom"))).error = formatError (PyErr.generic "boom")
    ∧ (submitControlLayer model0 7 0 "m" bounds0
        (Except.error (PyErr.generic "boom"))).jobs
        = model0.jobs.addControl 0 7 "m" bounds0 :=
  submission_error_recorded model0 false false 0 7 "p" "m" bounds0
    (PyErr.generic "boom") (by simp [model0, selectWorkflow])

/-! ### Registry dispatch of unknown job ids (C9) -/

/-- C9: a message whose job id is found in no Model's queue is dropped
silently: the registry round raises nothing and returns every Model
unchanged (jobs, progress, error text and preview surface untouched). -/
theorem unknown_job_message_dropped (ceiling : ℚ) (models : List ModelState)
    (msg : ClientMessage)
    (h : ∀ m ∈ models, findById m.jobs.entries msg.job_id = none) :
    registryHandle ceiling models msg = some models := by
  induction models with
  | nil => rfl
  | cons m rest ih =>
    have hm := h m (List.mem_cons_self m rest)
    have hrest := ih (fun m2 hm2 => h m2 (List.mem_cons_of_mem m hm2))
    simp [registryHandle, hm, hrest]

/-- Witness for C9: a progress message for the unknown id "zz" against two
models. -/
theorem unknown_job_message_dropped_witness :
    registryHandle 100 [model0, modelA] ⟨"zz", ClientEvent.progress 0⟩
      = some [model0, modelA] :=
  unknown_job_message_dropped 100 [model0, modelA] ⟨"zz", ClientEvent.progress 0⟩
    (by decide)

/-! ### Control job finishing with zero results (C8) -/

/-- A ref-keyed in-place update preserves the presence of any identity. -/
theorem exists_ref_map_update (l : List Job) (r r2 : Nat) (upd : Job → Job)
    (hupd : ∀ x, (upd x).ref = x.ref) (h : ∃ x ∈ l, x.ref = r2) :
    ∃ x ∈ l.map (fun y => if y.ref = r then upd y else y), x.ref = r2 := by
  rcases h with ⟨x, hx, hxr⟩
  refine ⟨(fun y => if y.ref = r then upd y else y) x, List.mem_map_of_mem _ hx, ?_⟩
  by_cases hr : x.ref = r
  · show (if x.ref = r then upd x else x).ref = r2
    rw [if_pos hr, hupd x]
    exact hxr
  · show (if x.ref = r then upd x else x).ref = r2
    rw [if_neg hr]
    exact hxr

/-- After removing the first entry with identity `r` from a list of
pairwise-distinct objects, no entry with identity `r` remains. -/
theorem eraseFirstRef_no_ref (r : Nat) :
    ∀ l : List Job, (l.map Job.ref).Nodup →
    ∀ x ∈ eraseFirstRef l r, x.ref ≠ r := by
  intro l
  induction l with
  | nil =>
    intro _ x hx
    simp [eraseFirstRef] at hx
  | cons a rest ih =>
    intro hnd x hx
    rw [List.map_cons] at hnd
    rcases List.nodup_cons.mp hnd with ⟨hna, hnd2⟩
    by_cases ha : a.ref = r
    · rw [eraseFirstRef, if_pos ha] at hx
      intro hxr
      apply hna
      have hm := List.mem_map_of_mem Job.ref hx
      rw [hxr, ← ha] at hm
      exact hm
    · rw [eraseFirstRef, if_neg ha] at hx
      rcases List.mem_cons.mp hx with h1 | h1
      · subst h1; exact ha
      · exact ih hnd2 x h1

/-- C8: when a finished message with an empty result collection arrives for
a control-layer job, the job's back-referenced control spec's image is set
to the document's currently active layer and the job is removed from the
queue. -/
theorem control_job_zero_results (ceiling : ℚ) (m : ModelState) (j : Job)
    (jid : String) (cref : Nat)
    (hfind : findById m.jobs.entries jid = some j)
    (hkind : j.kind = JobKind.control_layer)
    (hctl : j.control = some cref)
    (hnodup : (m.jobs.entries.map Job.ref).Nodup) :
    ∃ m2, handleMessage ceiling m ⟨jid, ClientEvent.finished ⟨[]⟩⟩ = some m2
      ∧ lookupControlImage m2.controlImages cref = some m.doc.activeLayer
      ∧ ∀ x ∈ m2.jobs.entries, x.ref ≠ j.ref := by
  have hjmem : j ∈ m.jobs.entries := List.mem_of_find?_eq_some hfind
  have hex2 : ∃ x ∈ (m.jobs.entries.map
      (fun x => if x.ref = j.ref then { x with state := State.finished } else x)).map
      (fun x => if x.ref = j.ref then { x with results := (⟨[]⟩ : ImageCollection) } else x),
      x.ref = j.ref := by
    apply exists_ref_map_update _ j.ref j.ref
      (fun x => { x with results := (⟨[]⟩ : ImageCollection) }) (fun x => rfl)
    exact exists_ref_map_update m.jobs.entries j.ref j.ref
      (fun x => { x with state := State.finished }) (fun x => rfl)
      ⟨j, hjmem, rfl⟩
  have hany : ((m.jobs.entries.map
      (fun x => if x.ref = j.ref then { x with state := State.finished } else x)).map
      (fun x => if x.ref = j.ref then { x with results := (⟨[]⟩ : ImageCollection) } else x)).any
      (fun y => y.ref = j.ref) = true := by
    rcases hex2 with ⟨x, hx, hxr⟩
    exact List.any_eq_true.mpr ⟨x, hx, by simp [hxr]⟩
  have hnd2 : (((m.jobs.entries.map
      (fun x => if x.ref = j.ref then { x with state := State.finished } else x)).map
      (fun x => if x.ref = j.ref then { x with results := (⟨[]⟩ : ImageCollection) } else x)).map
      Job.ref).Nodup := by
    rw [map_ref_update j.ref
        (fun x => { x with results := (⟨[]⟩ : ImageCollection) }) (fun _ => rfl),
      map_ref_update j.ref
        (fun x => { x with state := State.finished }) (fun _ => rfl)]
    exact hnodup
  simp only [handleMessage, hfind, hkind, hctl, JobQueue.setResults, JobQueue.remove,
    addControlLayer, setState, hany,
    eq_false (by decide : ¬ (JobKind.control_layer = JobKind.diffusion)),
    if_false, false_and, if_true, ite_true, ite_false, eq_self_iff_true]
  refine ⟨_, rfl, by simp [lookupControlImage], ?_⟩
  intro x hx
  exact eraseFirstRef_no_ref j.ref _ hnd2 x hx

/-! ### Terminal states under later messages (C7) -/

/-- Counterexample to C7: `handle_message` re-executes a finished job on a
later progress message — after finished; progress the job is back in
`executing`.  (The code has no terminal-state guard.) -/
theorem finished_then_progress_cex :
    (processMessages 100 modelA [⟨"a", ClientEvent.finished ⟨[imgMB 1]⟩⟩]).map
      (fun m => m.jobs.entries.map Job.state) = some [State.finished]
    ∧ (processMessages 100 modelA [⟨"a", ClientEvent.finished ⟨[imgMB 1]⟩⟩,
        ⟨"a", ClientEvent.progress (1 / 2)⟩]).map
      (fun m => m.jobs.entries.map Job.state) = some [State.executing] := by
  constructor <;>
    norm_num [processMessages, handleMessage, modelA, findById, List.find?,
      JobQueue.setResults, pruneLoop, setState, mb, ImageCollection.size, imgMB,
      bounds0, showPreview, addControlLayer, JobQueue.remove,
      eq_false (by decide : ¬ (JobKind.diffusion = JobKind.control_layer)),
      eq_false (by decide : ¬ (JobKind.control_layer = JobKind.diffusion))]

/-- Membership transfer through a ref-keyed in-place update, for entries
with a different identity. -/
theorem mem_of_mem_map_update (l : List Job) (r : Nat) (upd : Job → Job)
    (hupd : ∀ y, (upd y).ref = y.ref) (x : Job)
    (hx : x ∈ l.map (fun y => if y.ref = r then upd y else y))
    (hxr : x.ref ≠ r) : x ∈ l := by
  rcases List.mem_map.mp hx with ⟨y, hy, hyx⟩
  by_cases hr : y.ref = r
  · rw [if_pos hr] at hyx
    exact absurd (by rw [← hyx]; exact (hupd y).trans hr) hxr
  · rw [if_neg hr] at hyx
    rw [← hyx]
    exact hy

/-- Entries that are not the target of `set_results` and survive it were
already in the queue, unchanged. -/
theorem setResults_entries_sub (ceiling : ℚ) (q : JobQueue) (job : Job)
    (res : ImageCollection) (q2 : JobQueue)
    (h : q.setResults ceiling job res = some q2) :
    ∀ x ∈ q2.entries, x.ref ≠ job.ref → x ∈ q.entries := by
  simp only [JobQueue.setResults] at h
  by_cases hk : job.kind = JobKind.diffusion
  · rw [if_pos hk] at h
    cases hpl : pruneLoop ceiling { job with results := res }
        (q.memoryUsage + mb res.size)
        (q.entries.map (fun x => if x.ref = job.ref then { x with results := res } else x)) with
    | none => rw [hpl] at h; exact absurd h (by simp)
    | some p =>
      rw [hpl] at h
      simp at h
      subst h
      intro x hx hxr
      exact mem_of_mem_map_update q.entries job.ref
        (fun y => { y with results := res }) (fun _ => rfl) x
        ((pruneLoop_conserves ceiling _ _ _ _ _ hpl).1.subset hx) hxr
  · rw [if_neg hk] at h
    simp at h
    subst h
    intro x hx hxr
    exact mem_of_mem_map_update q.entries job.ref
      (fun y => { y with results := res }) (fun _ => rfl) x hx hxr

/-- `show_preview` never touches the job queue. -/
theorem showPreview_jobs (m : ModelState) (jid : String) (i : Nat) (m2 : ModelState)
    (h : showPreview m jid i = some m2) : m2.jobs = m.jobs := by
  unfold showPreview at h
  repeat' split at h
  all_goals try dsimp only at h
  all_goals simp at h
  all_goals try subst h
  all_goals rfl

/-- `add_control_layer` never touches the job queue. -/
theorem addControlLayer_jobs (m : ModelState) (job : Job) (m2 : ModelState)
    (img : Nat) (h : addControlLayer m job = some (m2, img)) : m2.jobs = m.jobs := by
  unfold addControlLayer at h
  repeat' split at h
  all_goals try dsimp only at h
  all_goals simp at h
  all_goals try (rcases h with ⟨h1, h2⟩; rw [← h1])

/-- Removing a job yields a sub-collection of the entries. -/
theorem remove_entries_sub (q : JobQueue) (job : Job) (q2 : JobQueue)
    (h : q.remove job = some q2) : q2.entries ⊆ q.entries := by
  unfold JobQueue.remove at h
  repeat' split at h
  all_goals simp at h
  all_goals subst h
  all_goals exact eraseFirstRef_subset q.entries job.ref

/-- Any entry other than the message's target that is in the queue after
`handle_message` was already in the queue before, unchanged. -/
theorem handleMessage_entries_sub (ceiling : ℚ) (m m2 : ModelState)
    (mid : String) (mev : ClientEvent) (f : Job)
    (hfind : findById m.jobs.entries mid = some f)
    (h : handleMessage ceiling m ⟨mid, mev⟩ = some m2) :
    ∀ x ∈ m2.jobs.entries, x.ref ≠ f.ref → x ∈ m.jobs.entries := by
  cases mev with
  | progress v =>
    simp only [handleMessage, hfind] at h
    simp at h
    subst h
    intro x hx hxr
    simp only [setState] at hx
    exact mem_of_mem_map_update m.jobs.entries f.ref
      (fun y => { y with state := State.executing }) (fun _ => rfl) x hx hxr
  | interrupted =>
    simp only [handleMessage, hfind] at h
    simp at h
    subst h
    intro x hx hxr
    simp only [setState] at hx
    exact mem_of_mem_map_update m.jobs.entries f.ref
      (fun y => { y with state := State.cancelled }) (fun _ => rfl) x hx hxr
  | error emsg =>
    simp only [handleMessage, hfind] at h
    simp at h
    subst h
    intro x hx hxr
    simp only [setState] at hx
    exact mem_of_mem_map_update m.jobs.entries f.ref
      (fun y => { y with state := State.cancelled }) (fun _ => rfl) x hx hxr
  | finished imgs =>
    simp only [handleMessage, hfind] at h
    -- name the set_results outcome, then walk the remaining control flow
    cases hsr : JobQueue.setResults
        ⟨setState m.jobs.entries f.ref State.finished, m.jobs.memoryUsage⟩
        ceiling { f with state := State.finished } imgs with
    | none => rw [hsr] at h; exact absurd h (by simp)
    | some q2 =>
      rw [hsr] at h
      have hq2 : ∀ x ∈ q2.entries, x.ref ≠ f.ref → x ∈ m.jobs.entries := by
        intro x hx hxr
        have hx1 := setResults_entries_sub ceiling _ _ _ _ hsr x hx hxr
        simp only [setState] at hx1
        exact mem_of_mem_map_update m.jobs.entries f.ref
          (fun y => { y with state := State.finished }) (fun _ => rfl) x hx1 hxr
      simp only at h
      repeat' split at h
      all_goals simp at h
      all_goals try subst h
      · -- control-layer branch: the target job is removed, the rest survive
        rename_i ap m3 heq3 hctl2 xo cref heqc xo1 m4 img heqacl xo2 q5 heqrm
        have hm3 : m3.jobs = q2 := by
          by_cases hc : f.kind = JobKind.diffusion ∧ m.layer = none
          · rw [if_pos hc] at heq3
            cases hfid : f.id with
            | none => rw [hfid] at heq3; exact absurd heq3 (by simp)
            | some jid =>
              rw [hfid] at heq3
              exact showPreview_jobs _ jid 0 m3 heq3
          · rw [if_neg hc] at heq3
            simp at heq3
            subst heq3
            rfl
        intro x hx hxr
        have hx5 : x ∈ q5.entries := hx
        have hx4 := remove_entries_sub m4.jobs _ q5 heqrm hx5
        rw [addControlLayer_jobs m3 _ m4 img heqacl, hm3] at hx4
        exact hq2 x hx4 hxr
      · -- diffusion branch: the queue after the step is exactly q2
        rename_i ap m3 heq3 hnc
        have hm3 : m3.jobs = q2 := by
          by_cases hc : f.kind = JobKind.diffusion ∧ m.layer = none
          · rw [if_pos hc] at heq3
            cases hfid : f.id with
            | none => rw [hfid] at heq3; exact absurd heq3 (by simp)
            | some jid =>
              rw [hfid] at heq3
              exact showPreview_jobs _ jid 0 m3 heq3
          · rw [if_neg hc] at heq3
            simp at heq3
            subst heq3
            rfl
        intro x hx hxr
        rw [hm3] at hx
        exact hq2 x hx hxr

/-- One handled message addressed to a different job id never changes the
state (or id) of entries carrying the protected identity. -/
theorem handleMessage_other_stable (ceiling : ℚ) (m m2 : ModelState)
    (msg : ClientMessage) (jref : Nat) (jid : String) (s : State)
    (hne : msg.job_id ≠ jid)
    (hP : ∀ x ∈ m.jobs.entries, x.ref = jref → (x.state = s ∧ x.id = some jid))
    (h : handleMessage ceiling m msg = some m2) :
    ∀ x ∈ m2.jobs.entries, x.ref = jref → (x.state = s ∧ x.id = some jid) := by
  obtain ⟨mid, mev⟩ := msg
  cases hfind : findById m.jobs.entries mid with
  | none =>
    simp only [handleMessage, hfind] at h
    exact absurd h (by simp)
  | some f =>
    have hfr : f.ref ≠ jref := by
      intro heq
      have hfid : f.id = some mid := by simpa using List.find?_some hfind
      have h2 := (hP f (List.mem_of_find?_eq_some hfind) heq).2
      rw [hfid] at h2
      simp at h2
      exact hne h2
    intro x hx hxr
    have hxf : x.ref ≠ f.ref := by
      rw [hxr]
      exact fun hh => hfr hh.symm
    exact hP x (handleMessage_entries_sub ceiling m m2 mid mev f hfind h x hx hxf) hxr

/-- Lifting of the per-message lemma to whole message sequences. -/
theorem processMessages_other_stable (ceiling : ℚ) :
    ∀ (msgs : List ClientMessage) (m m2 : ModelState) (jref : Nat) (jid : String)
      (s : State),
    (∀ msg ∈ msgs, msg.job_id ≠ jid) →
    (∀ x ∈ m.jobs.entries, x.ref = jref → (x.state = s ∧ x.id = some jid)) →
    processMessages ceiling m msgs = some m2 →
    ∀ x ∈ m2.jobs.entries, x.ref = jref → (x.state = s ∧ x.id = some jid) := by
  intro msgs
  induction msgs with
  | nil =>
    intro m m2 jref jid s _ hP hrun
    simp [processMessages] at hrun
    subst hrun
    exact hP
  | cons msg rest ih =>
    intro m m2 jref jid s hmsgs hP hrun
    simp only [processMessages] at hrun
    cases hh : handleMessage ceiling m msg with
    | none => rw [hh] at hrun; exact absurd hrun (by simp)
    | some m1 =>
      rw [hh] at hrun
      exact ih m1 m2 jref jid s (fun ms hms => hmsgs ms (List.mem_cons_of_mem msg hms))
        (handleMessage_other_stable ceiling m m1 msg jref jid s
          (hmsgs msg (List.mem_cons_self msg rest)) hP hh) hrun

/-- C7 (amended): under the causal-ordering assumption the spec itself
states — once a job has reported `finished` or `cancelled`, no later handled
message carries that job's id — message handling never transitions that job
again: every queue entry with the job's identity keeps its state.  (Without
the assumption the claim fails: the handler has no terminal-state guard, see
the counterexample.) -/
theorem terminal_state_stable (ceiling : ℚ) (m m2 : ModelState) (j : Job)
    (jid : String) (msgs : List ClientMessage)
    (hmem : j ∈ m.jobs.entries) (hid : j.id = some jid)
    (hterm : j.state = State.finished ∨ j.state = State.cancelled)
    (hnodup : (m.jobs.entries.map Job.ref).Nodup)
    (hmsgs : ∀ msg ∈ msgs, msg.job_id ≠ jid)
    (hrun : processMessages ceiling m msgs = some m2) :
    ∀ x ∈ m2.jobs.entries, x.ref = j.ref → x.state = j.state := by
  have hP : ∀ x ∈ m.jobs.entries, x.ref = j.ref → (x.state = j.state ∧ x.id = some jid) := by
    intro x hx hxr
    have hxj : x = j := List.inj_on_of_nodup_map hnodup hx hmem hxr
    subst hxj
    exact ⟨rfl, hid⟩
  exact fun x hx hxr =>
    (processMessages_other_stable ceiling msgs m m2 j.ref jid j.state hmsgs hP hrun
      x hx hxr).1

/-- Witness for the amended C7: job "a" is finished; after a progress message
for job "b", the entry carrying job "a"'s identity is still finished. -/
theorem terminal_state_stable_witness :
    (⟨0, some "a", JobKind.diffusion, State.finished, "p", bounds0, none,
      ⟨[imgMB 1]⟩⟩ : Job).state = State.finished :=
  terminal_state_stable 100 modelB modelB2
    ⟨0, some "a", JobKind.diffusion, State.finished, "p", bounds0, none, ⟨[imgMB 1]⟩⟩
    "a" [⟨"b", ClientEvent.progress 0⟩]
    (by decide) rfl (Or.inl rfl) (by decide) (by decide) rfl
    ⟨0, some "a", JobKind.diffusion, State.finished, "p", bounds0, none, ⟨[imgMB 1]⟩⟩
    (by decide) rfl

/-- Witness for C8: the control job of `modelC` (spec 9, active layer 3)
finishing with zero results. -/
theorem control_job_zero_results_witness :
    ∃ m2, handleMessage 100 modelC ⟨"c", ClientEvent.finished ⟨[]⟩⟩ = some m2
      ∧ lookupControlImage m2.controlImages 9 = some modelC.doc.activeLayer
      ∧ ∀ x ∈ m2.jobs.entries, x.ref ≠ (⟨0, some "c", JobKind.control_layer,
          State.executing, "[Control] x", bounds0, some 9, ⟨[]⟩⟩ : Job).ref :=
  control_job_zero_results 100 modelC
    ⟨0, some "c", JobKind.control_layer, State.executing, "[Control] x", bounds0,
      some 9, ⟨[]⟩⟩
    "c" 9 (by decide) rfl rfl (by decide)
